import Mathlib

/-!
Verification of the FIshare transfer core (network.py, security.py, state.py).

The Python source is shallowly embedded: bytes are `Nat` values below 256 in
`List Nat`, wall-clock times and progress ratios are `ℚ`, Python dicts are
total functions into `Option`, and fallible operations return `Option` or
`Except`.  ChaCha20-Poly1305 (an external library primitive) is modelled as an
ideal AEAD: a ciphertext retains its key, nonce, associated data and plaintext,
and decryption succeeds exactly when key, nonce and associated data match.
-/

/-! ### Big-endian byte encodings

`beBytes w n` is `n.to_bytes(w, "big")` / `struct.pack` for a `w`-byte field
(the caller checks the overflow condition `n < 256 ^ w` where Python raises).
`beToNat` is `struct.unpack(">I", ...)` generalized to any length. -/

def beBytes : Nat → Nat → List Nat
  | 0, _ => []
  | w + 1, n => beBytes w (n / 256) ++ [n % 256]

def beToNat (bs : List Nat) : Nat :=
  bs.foldl (fun a b => 256 * a + b) 0

/-! ### Framed message codec (network.py, class Proto)

`recv_json` first reads a 4-byte big-endian length prefix, then reads exactly
that many payload bytes; `_recvall` returns a short buffer if the stream ends
early.  The code distinguishes: empty header (`raise ConnectionError`), header
shorter than 4 bytes (`struct.unpack` error), and otherwise hands the payload
on to AEAD/JSON decoding.  `Proto.recv_payload` models `recv_json` up to and
including the payload read, returning the payload and the unconsumed stream:
this is the point where a frame-size cap would act, and the code has none. -/

inductive ProtoErr
  | peerClosed
  | unpackError
  deriving DecidableEq, Repr

def Proto.HEADER_LEN : Nat := 4

def Proto.recv_payload (stream : List Nat) :
    Except ProtoErr (List Nat × List Nat) :=
  let hdr := stream.take Proto.HEADER_LEN
  if hdr.isEmpty then .error .peerClosed
  else if hdr.length ≠ Proto.HEADER_LEN then .error .unpackError
  else
    let len := beToNat hdr
    let rest := stream.drop Proto.HEADER_LEN
    .ok (rest.take len, rest.drop len)

/-! ### AEAD stream (security.py, class AEADStream) -/

/-- Byte values of the constant associated data `b"FIshare"`. -/
def fishareAD : List Nat := [70, 73, 115, 104, 97, 114, 101]

/-- Idealized ChaCha20-Poly1305 ciphertext: the sealed value retains the
inputs; opening checks key, nonce and associated data. -/
structure Ciphertext where
  key : Nat
  nonce : List Nat
  ad : List Nat
  plain : List Nat
  deriving DecidableEq, Repr

structure AEADStream where
  key : Nat
  sendNonce : Nat
  recvNonce : Nat
  deriving DecidableEq, Repr

/-- `AEADStream.__init__`: both direction counters start at 0. -/
def AEADStream.init (key : Nat) : AEADStream := ⟨key, 0, 0⟩

/-- `AEADStream._n2b`: `n.to_bytes(12, "big")`; raises `OverflowError`
(modelled as `none`) for `n ≥ 256 ^ 12`. -/
def AEADStream.n2b (n : Nat) : Option (List Nat) :=
  if n < 256 ^ 12 then some (beBytes 12 n) else none

/-- `AEADStream.encrypt`: seal at the current send counter, then increment. -/
def AEADStream.encrypt (st : AEADStream) (data : List Nat) :
    Option (Ciphertext × AEADStream) :=
  match AEADStream.n2b st.sendNonce with
  | none => none
  | some nonce =>
      some (⟨st.key, nonce, fishareAD, data⟩,
            { st with sendNonce := st.sendNonce + 1 })

inductive DecryptResult
  | ok (plain : List Nat) (st : AEADStream)
  | authFail (st : AEADStream)
  | nonceOverflow
  deriving DecidableEq, Repr

/-- `AEADStream.decrypt`: compute the nonce from the receive counter (raising
on overflow, before the increment), increment the counter, then open; an
authentication failure raises after the counter was already incremented. -/
def AEADStream.decrypt (st : AEADStream) (ct : Ciphertext) : DecryptResult :=
  match AEADStream.n2b st.recvNonce with
  | none => .nonceOverflow
  | some nonce =>
      let st2 : AEADStream := { st with recvNonce := st.recvNonce + 1 }
      if ct.key = st.key ∧ ct.nonce = nonce ∧ ct.ad = fishareAD then
        .ok ct.plain st2
      else
        .authFail st2

/-- Run `encrypt` over a list of messages, threading the stream state. -/
def encryptAll (st : AEADStream) : List (List Nat) →
    Option (List Ciphertext × AEADStream)
  | [] => some ([], st)
  | d :: ds =>
      match st.encrypt d with
      | none => none
      | some (c, st1) =>
          match encryptAll st1 ds with
          | none => none
          | some (cs, st2) => some (c :: cs, st2)

/-- Run `decrypt` over a list of ciphertexts; stops at the first failure. -/
def decryptAll (st : AEADStream) : List Ciphertext →
    Option (List (List Nat) × AEADStream)
  | [] => some ([], st)
  | c :: cs =>
      match st.decrypt c with
      | .ok p st1 =>
          match decryptAll st1 cs with
          | none => none
          | some (ps, st2) => some (p :: ps, st2)
      | _ => none

/-! ### AEAD-sealed framing (Proto.send_json / Proto.recv_json with aead)

`send_json` serializes, seals, then prefixes the 4-byte big-endian length of
the sealed payload (`struct.pack(">I", ...)` raises for lengths `≥ 2^32`).
The real tag adds 16 bytes, so the sealed length is `plain + 16`.
`recv_json` reads exactly the prefixed number of bytes and opens them: if the
prefix does not equal the sealed length the opened bytes are not the
ciphertext and authentication fails (after the counter increment). -/

def ctLen (c : Ciphertext) : Nat := c.plain.length + 16

structure SealedFrame where
  header : List Nat
  body : Ciphertext
  deriving DecidableEq, Repr

def Proto.send_json_aead (st : AEADStream) (payload : List Nat) :
    Option (SealedFrame × AEADStream) :=
  match st.encrypt payload with
  | none => none
  | some (c, st2) =>
      if ctLen c < 2 ^ 32 then some (⟨beBytes 4 (ctLen c), c⟩, st2) else none

def Proto.recv_json_aead (st : AEADStream) (f : SealedFrame) : DecryptResult :=
  if beToNat f.header = ctLen f.body then st.decrypt f.body
  else
    match AEADStream.n2b st.recvNonce with
    | none => .nonceOverflow
    | some _ => .authFail { st with recvNonce := st.recvNonce + 1 }

/-- The frame `send_json` produces for payload `B` at send counter `i`. -/
def frameOf (key i : Nat) (B : List Nat) : SealedFrame :=
  ⟨beBytes 4 (B.length + 16), ⟨key, beBytes 12 i, fishareAD, B⟩⟩

/-! ### File chunking and the latin-1 byte/codepoint mapping

`TransferService.send_to` reads each file in pieces of `CHUNK_SIZE` bytes
(`f.read` returns a shorter final piece, and an empty read ends the loop) and
ships each piece as `chunk.decode("latin1")` — the 1:1 mapping from bytes
`0x00..0xFF` to codepoints `U+0000..U+00FF`, modelled as the identity on byte
values.  The receiver (`_handle_peer`) runs `while remaining > 0`, reading one
chunk message per iteration and writing `msg["data"].encode("latin1")`, which
fails (`UnicodeEncodeError`) on any codepoint `≥ 256`. -/

def CHUNK_SIZE : Nat := 64 * 1024

def MAX_RETRIES : Nat := 3

/-- The pieces `f.read(n)` produces over the whole file. -/
def chunksOf (n : Nat) (l : List Nat) : List (List Nat) :=
  if h : l = [] ∨ n = 0 then []
  else l.take n :: chunksOf n (l.drop n)
termination_by l.length
decreasing_by
  simp only [List.length_drop]
  have hl : l ≠ [] := fun he => h (Or.inl he)
  have hn : n ≠ 0 := fun he => h (Or.inr he)
  have : 0 < l.length := List.length_pos.mpr hl
  omega

/-- `bytes.decode("latin1")`: total, byte value `i` becomes codepoint `i`. -/
def pyDecodeLatin1 (b : List Nat) : List Nat := b

/-- `str.encode("latin1")`: fails on a codepoint `≥ 256`. -/
def pyEncodeLatin1 (s : List Nat) : Option (List Nat) :=
  if s.all (fun c => c < 256) then some s else none

/-- The `file_chunk` message payloads `send_to` emits for one file. -/
def senderChunkMsgs (F : List Nat) : List (List Nat) :=
  (chunksOf CHUNK_SIZE F).map pyDecodeLatin1

/-- The receiver's per-file write loop (`_handle_peer`): consume one chunk
message while `remaining > 0`, append its latin-1 bytes, decrement
`remaining`.  `none` models an exception (stream exhausted while
`remaining > 0`, or a codepoint `≥ 256`); `some` returns the bytes written. -/
def recvFileLoop : List (List Nat) → Int → Option (List Nat)
  | msgs, r =>
    if r ≤ 0 then some []
    else
      match msgs with
      | [] => none
      | m :: rest =>
          match pyEncodeLatin1 m with
          | none => none
          | some data =>
              (recvFileLoop rest (r - data.length)).map (fun w => data ++ w)

/-! ### Destination path resolution (network.py, _handle_peer)

The receiver computes `dest_path = os.path.join(download_dir, fname)` with the
`file` field exactly as received; `osPathJoin` is `posixpath.join` for two
components.  `splitPath`/`normalizeSegs` evaluate where such a path actually
lands: split on `/`, drop empty and `.` segments, and let a `..` segment pop
the previous one.  `specResolveDest` is the guard §4.5/§9 of the specification
describes (basename only; separators or `..` segments are a protocol error),
written here only to be compared with the code's `destPath`. -/

def sepChar : Char := '/'

/-- `str.startswith("/")`, over the character list. -/
def startsWithSlash (s : String) : Bool :=
  match s.data with
  | [] => false
  | c :: _ => c = sepChar

/-- `str.endswith("/")`, over the character list. -/
def endsWithSlash (s : String) : Bool :=
  match s.data.getLast? with
  | none => false
  | some c => c = sepChar

/-- `posixpath.join` for two components. -/
def osPathJoin (a b : String) : String :=
  if startsWithSlash b then b
  else if a = "" ∨ endsWithSlash a then a ++ b
  else a ++ "/" ++ b

/-- `dest_path` as `_handle_peer` computes it (network.py line 257). -/
def destPath (downloadDir fname : String) : String :=
  osPathJoin downloadDir fname

/-- Split a character list at `/`. -/
def splitSegsAux : List Char → List Char → List String
  | [], acc => [String.mk acc.reverse]
  | c :: cs, acc =>
      if c = sepChar then String.mk acc.reverse :: splitSegsAux cs []
      else splitSegsAux cs (c :: acc)

def splitSegs (p : String) : List String := splitSegsAux p.data []

/-- `posixpath.basename`: the part after the final `/`. -/
def osPathBasename (p : String) : String := (splitSegs p).getLastD ""

/-- The path components, dropping empty and `.` segments. -/
def splitPath (p : String) : List String :=
  (splitSegs p).filter (fun s => s ≠ "" ∧ s ≠ ".")

/-- Resolve `..` segments: each one pops the previous component. -/
def normalizeSegs (segs : List String) : List String :=
  segs.foldl (fun acc s => if s = ".." then acc.dropLast else acc ++ [s]) []

/-- The destination-path guard described by the specification: reduce `file`
to its basename, treating separators and `..` segments as a protocol error. -/
def specResolveDest (downloadDir fname : String) : Option String :=
  if fname.data.contains sepChar ∨ fname = ".." then none
  else some (osPathJoin downloadDir fname)

/-! ### Shared application state (state.py, class AppState)

Dicts become total functions into `Option`; `time.time()` becomes an explicit
`now : ℚ` argument on every operation that reads the clock. -/

inductive AppStatus
  | available
  | busy
  deriving DecidableEq, Repr

inductive TransferStatus
  | completed
  | error
  | canceled
  deriving DecidableEq, Repr

/-- The `.value` strings of `TransferStatus`. -/
def TransferStatus.value : TransferStatus → String
  | .completed => "completed"
  | .error => "error"
  | .canceled => "canceled"

structure Device where
  device_id : String
  name : String
  host : String
  port : Nat
  status : AppStatus
  last_seen : ℚ
  deriving DecidableEq, Repr

structure AppState where
  status : AppStatus
  devices : String → Option Device
  selected_device_ids : List String
  selected_files : List String
  progress : String → Option ℚ
  rejections : List String
  transfer_speeds : String → Option ℚ
  transfer_start_times : String → Option ℚ
  transfer_bytes : String → Option Nat
  transfer_status : String → Option TransferStatus

/-- Point update of a dict modelled as a function. -/
def upd {α : Type} (f : String → Option α) (k : String) (v : Option α) :
    String → Option α :=
  fun k2 => if k2 = k then v else f k2

/-- `AppState.__init__` (the config contributes only `allow_incoming`). -/
def AppState.init (allowIncoming : Bool) : AppState where
  status := if allowIncoming then .available else .busy
  devices := fun _ => none
  selected_device_ids := []
  selected_files := []
  progress := fun _ => none
  rejections := []
  transfer_speeds := fun _ => none
  transfer_start_times := fun _ => none
  transfer_bytes := fun _ => none
  transfer_status := fun _ => none

/-- `max(0.0, min(1.0, ratio))`. -/
def pyClamp (r : ℚ) : ℚ := max 0 (min 1 r)

/-- `AppState.update_progress`: clamp and store the ratio; when
`bytes_transferred > 0`, record the byte count and, if a start time exists and
positive time elapsed, the speed in MiB/s. -/
def AppState.update_progress (s : AppState) (device_id : String) (ratio : ℚ)
    (bytes_transferred : Nat) (now : ℚ) : AppState :=
  let s1 := { s with progress := upd s.progress device_id (some (pyClamp ratio)) }
  if bytes_transferred > 0 then
    let s2 := { s1 with transfer_bytes := upd s1.transfer_bytes device_id (some bytes_transferred) }
    match s2.transfer_start_times device_id with
    | some t0 =>
        let elapsed := now - t0
        if elapsed > 0 then
          let spd : ℚ := ((bytes_transferred : ℚ) / (1024 * 1024)) / elapsed
          { s2 with transfer_speeds := upd s2.transfer_speeds device_id (some spd) }
        else s2
    | none => s2
  else s1

/-- `AppState.start_transfer`: record the start time, zero the byte and speed
counters, tentatively mark the transfer COMPLETED. -/
def AppState.start_transfer (s : AppState) (device_id : String) (now : ℚ) :
    AppState :=
  { s with
    transfer_start_times := upd s.transfer_start_times device_id (some now),
    transfer_bytes := upd s.transfer_bytes device_id (some 0),
    transfer_speeds := upd s.transfer_speeds device_id (some 0),
    transfer_status := upd s.transfer_status device_id (some .completed) }

def AppState.set_transfer_status (s : AppState) (device_id : String)
    (status : TransferStatus) : AppState :=
  { s with transfer_status := upd s.transfer_status device_id (some status) }

/-- `AppState.clear_progress`: pop the device from all five per-device maps. -/
def AppState.clear_progress (s : AppState) (device_id : String) : AppState :=
  { s with
    progress := upd s.progress device_id none,
    transfer_speeds := upd s.transfer_speeds device_id none,
    transfer_start_times := upd s.transfer_start_times device_id none,
    transfer_bytes := upd s.transfer_bytes device_id none,
    transfer_status := upd s.transfer_status device_id none }

/-- `AppState.prune_devices`: keep devices with `now - last_seen < ttl`, then
restrict `progress` and `selected_device_ids` to the surviving keys. -/
def AppState.prune_devices (s : AppState) (now ttl_seconds : ℚ) : AppState :=
  let devices2 : String → Option Device := fun k =>
    match s.devices k with
    | some d => if now - d.last_seen < ttl_seconds then some d else none
    | none => none
  { s with
    devices := devices2,
    progress := fun k => if (devices2 k).isSome then s.progress k else none,
    selected_device_ids :=
      s.selected_device_ids.filter (fun k => (devices2 k).isSome) }

/-! ### Sender control flow (network.py, TransferService.send_to)

One attempt's interaction with the peer is abstracted as an
`AttemptOutcome`: an exception anywhere between `start_transfer` and parsing
the response (`preFail`), an explicit `accept == false` (`rejected`), an
exception while streaming after an accepting response (`streamFail`, carrying
the chunk sizes streamed before it), or a complete stream (`success`).  The
whole attempt body sits in one `try`, so `send_to` runs attempts `0, 1, 2`
(`for attempt in range(MAX_RETRIES)`), the `except` arm turning any exception
into the next iteration; `accept == false` and success return from inside the
`try`.  History records (`TransferHistory.add_record` inserts most recent
first, capped at 1000) are emitted only when the service was constructed with
a history object (`if self.history`), modelled by `hasHistory`. -/

structure HistRecord where
  direction : String
  num_files : Nat
  total_size : Nat
  status : String
  error_msg : Option String
  deriving DecidableEq, Repr

/-- The record the sender adds when the recipient refuses. -/
def cancelRec (nfiles total : Nat) : HistRecord :=
  ⟨"sent", nfiles, total, TransferStatus.value .canceled,
   some "Transfer rejected by recipient"⟩

def compRec (nfiles total : Nat) : HistRecord :=
  ⟨"sent", nfiles, total, TransferStatus.value .completed, none⟩

def errRec (nfiles total : Nat) (msg : String) : HistRecord :=
  ⟨"sent", nfiles, total, TransferStatus.value .error, some msg⟩

inductive AttemptOutcome
  | preFail (msg : String)
  | rejected
  | streamFail (msg : String) (sent : List Nat)
  | success (chunks : List Nat)
  deriving DecidableEq, Repr

/-- Outcomes the `except` arm catches, leading to another attempt. -/
def retryable : AttemptOutcome → Bool
  | .preFail _ => true
  | .streamFail _ _ => true
  | _ => false

inductive SendResult
  | ok (attempts : Nat)
  | refused (attempts : Nat)
  | failed
  deriving DecidableEq, Repr

structure SendSt where
  st : AppState
  hist : List HistRecord

/-- The states published while streaming chunks: after each chunk of size `c`
the sender runs `sent_total += c` and, when `total > 0`,
`update_progress(device_id, sent_total / total, sent_total)`.  The list holds
the state after each loop iteration. -/
def chunk_states (dev : String) (total : Nat) (now : ℚ) :
    List Nat → Nat → AppState → List AppState
  | [], _, _ => []
  | c :: cs, sent, s =>
      let sent2 := sent + c
      let s2 := if total > 0 then
          s.update_progress dev ((sent2 : ℚ) / (total : ℚ)) sent2 now
        else s
      s2 :: chunk_states dev total now cs sent2 s2

/-- One iteration of the attempt loop: `start_transfer`, then the outcome's
effects.  `some b` models `return b`; `none` falls through to the next
attempt (the `except` arm, which on the last attempt also records the error
status and history). -/
def run_attempt (dev : String) (nfiles total : Nat) (now : ℚ)
    (hasHistory isLast : Bool) (o : AttemptOutcome) (c : SendSt) :
    SendSt × Option Bool :=
  let s1 := c.st.start_transfer dev now
  match o with
  | .preFail msg =>
      if isLast then
        (⟨s1.set_transfer_status dev .error,
          (if hasHistory then [errRec nfiles total msg] else []) ++ c.hist⟩, none)
      else (⟨s1, c.hist⟩, none)
  | .rejected =>
      let s2 := (s1.set_transfer_status dev .canceled).update_progress dev 1 0 now
      (⟨s2, (if hasHistory then [cancelRec nfiles total] else []) ++ c.hist⟩,
       some false)
  | .streamFail msg sent =>
      let s2 := (chunk_states dev total now sent 0 s1).getLastD s1
      if isLast then
        (⟨s2.set_transfer_status dev .error,
          (if hasHistory then [errRec nfiles total msg] else []) ++ c.hist⟩, none)
      else (⟨s2, c.hist⟩, none)
  | .success chunks =>
      let s2 := (chunk_states dev total now chunks 0 s1).getLastD s1
      let s3 := s2.update_progress dev 1 chunks.sum now
      (⟨s3.clear_progress dev,
        (if hasHistory then [compRec nfiles total] else []) ++ c.hist⟩,
       some true)

/-- The attempt loop with `rem` iterations left, currently at index `idx`;
when the loop exhausts, the code after it marks ERROR, clears progress and
returns `False`. -/
def send_to_aux (dev : String) (nfiles total : Nat) (now : ℚ)
    (hasHistory : Bool) (script : Nat → AttemptOutcome) :
    Nat → Nat → SendSt → SendSt × SendResult
  | 0, _, c =>
      (⟨(c.st.set_transfer_status dev .error).clear_progress dev, c.hist⟩,
       .failed)
  | rem + 1, idx, c =>
      let r := run_attempt dev nfiles total now hasHistory
        (idx == MAX_RETRIES - 1) (script idx) c
      match r.2 with
      | some true => (r.1, .ok (idx + 1))
      | some false => (r.1, .refused (idx + 1))
      | none => send_to_aux dev nfiles total now hasHistory script rem (idx + 1) r.1

/-- `TransferService.send_to` for a device and a batch described by `nfiles`,
`total` and the per-attempt outcomes `script`. -/
def TransferService.send_to (dev : String) (nfiles total : Nat) (now : ℚ)
    (hasHistory : Bool) (script : Nat → AttemptOutcome) (s0 : AppState) :
    SendSt × SendResult :=
  send_to_aux dev nfiles total now hasHistory script MAX_RETRIES 0 ⟨s0, []⟩

/-- `AppState.upsert_device` (state.py): stamp `last_seen = now`, insert. -/
def AppState.upsert_device (s : AppState) (dev : Device) (now : ℚ) : AppState :=
  let dev2 := { dev with last_seen := now }
  { s with devices := fun k => if k = dev2.device_id then some dev2 else s.devices k }

/-! ## Theorems -/

/-! ### Big-endian encoding lemmas -/

theorem beBytes_length (w n : Nat) : (beBytes w n).length = w := by
  induction w generalizing n with
  | zero => rfl
  | succ w ih => simp [beBytes, ih]

theorem beToNat_append_singleton (xs : List Nat) (b : Nat) :
    beToNat (xs ++ [b]) = 256 * beToNat xs + b := by
  simp [beToNat, List.foldl_append]

theorem beToNat_beBytes (w n : Nat) (h : n < 256 ^ w) :
    beToNat (beBytes w n) = n := by
  induction w generalizing n with
  | zero =>
      interval_cases n
      rfl
  | succ w ih =>
      have hdiv : n / 256 < 256 ^ w := by
        rw [Nat.div_lt_iff_lt_mul (by norm_num)]
        calc n < 256 ^ (w + 1) := h
        _ = 256 ^ w * 256 := by ring
      rw [beBytes, beToNat_append_singleton, ih _ hdiv]
      omega

theorem beBytes_inj (w i j : Nat) (hi : i < 256 ^ w) (hj : j < 256 ^ w)
    (h : beBytes w i = beBytes w j) : i = j := by
  have h2 := congrArg beToNat h
  rw [beToNat_beBytes w i hi, beToNat_beBytes w j hj] at h2
  exact h2

theorem beBytes_zero (w : Nat) : beBytes w 0 = List.replicate w 0 := by
  induction w with
  | zero => rfl
  | succ w ih =>
      rw [beBytes, Nat.zero_div, ih, Nat.zero_mod]
      exact (List.replicate_succ' w 0).symm

theorem beBytes_split (a b n : Nat) (h : n < 256 ^ b) :
    beBytes (a + b) n = beBytes a 0 ++ beBytes b n := by
  induction b generalizing n with
  | zero =>
      have : n = 0 := by simpa using h
      subst this
      simp [beBytes]
  | succ b ih =>
      have hdiv : n / 256 < 256 ^ b := by
        rw [Nat.div_lt_iff_lt_mul (by norm_num)]
        calc n < 256 ^ (b + 1) := h
        _ = 256 ^ b * 256 := by ring
      have : a + (b + 1) = (a + b) + 1 := by omega
      rw [this, beBytes, ih _ hdiv, beBytes]
      simp

/-! ### C1: destination path resolution -/

/-- C1: the claim says the receiver joins `download_dir` with the basename
only of the `file_header`'s `file` field and treats separators or `..`
segments as a protocol error, so the written path never escapes the download
directory.  The code (network.py line 257) joins the raw field instead: at
the failing input `file = "../secret.txt"` with `download_dir = "/downloads"`
the guard the specification describes rejects (`specResolveDest` is `none`),
but the code computes `/downloads/../secret.txt`, which normalizes to
`/secret.txt` — outside `/downloads`. -/
theorem c1_code_writes_outside_download_dir :
    destPath "/downloads" "../secret.txt" = "/downloads/../secret.txt"
    ∧ specResolveDest "/downloads" "../secret.txt" = none
    ∧ osPathBasename "../secret.txt" = "secret.txt"
    ∧ normalizeSegs (splitPath (destPath "/downloads" "../secret.txt"))
        = ["secret.txt"]
    ∧ normalizeSegs (splitPath "/downloads") = ["downloads"] := by
  decide

/-! ### C2: no maximum frame payload -/

/-- C2 counterexample: a frame whose 4-byte prefix declares
`16777217 = 16 MiB + 1` bytes is not rejected by `recv_json`; the payload
read proceeds (here the stream holds one byte, which `_recvall` returns
short) and no protocol error is raised at the length check. -/
theorem c2_cap_counterexample :
    16 * 1024 * 1024 < beToNat ([1, 0, 0, 1] : List Nat)
    ∧ Proto.recv_payload [1, 0, 0, 1, 65] = .ok ([65], []) :=
  ⟨by decide, by rfl⟩

/-- C2 amended: `recv_json` enforces no maximum payload: whenever a full
4-byte header is available it reads exactly the declared number of bytes
(short only if the stream ends), for any declared length up to `2^32 - 1`,
with no cap check. -/
theorem c2_amended_no_cap (s : List Nat) (h : 4 ≤ s.length) :
    Proto.recv_payload s =
      .ok ((s.drop 4).take (beToNat (s.take 4)),
           (s.drop 4).drop (beToNat (s.take 4))) := by
  have hlen : (s.take 4).length = 4 := by
    simp [List.length_take]
    omega
  have hne : ((s.take 4).isEmpty) = false := by
    cases he : s.take 4 with
    | nil => rw [he] at hlen; simp at hlen
    | cons a l => simp
  simp [Proto.recv_payload, Proto.HEADER_LEN, hne, hlen]

/-- Witness for `c2_amended_no_cap` at a concrete stream. -/
theorem c2_amended_no_cap_witness :
    4 ≤ ([0, 0, 0, 2, 7, 8, 9] : List Nat).length
    ∧ Proto.recv_payload [0, 0, 0, 2, 7, 8, 9] =
        .ok ((([0, 0, 0, 2, 7, 8, 9] : List Nat).drop 4).take
               (beToNat (([0, 0, 0, 2, 7, 8, 9] : List Nat).take 4)),
             (([0, 0, 0, 2, 7, 8, 9] : List Nat).drop 4).drop
               (beToNat (([0, 0, 0, 2, 7, 8, 9] : List Nat).take 4))) :=
  ⟨by decide, c2_amended_no_cap [0, 0, 0, 2, 7, 8, 9] (by decide)⟩

/-! ### C3: AEAD counter and nonce discipline -/

theorem encrypt_ok_iff (st : AEADStream) (d : List Nat) (c : Ciphertext)
    (st2 : AEADStream) (h : AEADStream.encrypt st d = some (c, st2)) :
    st.sendNonce < 256 ^ 12
    ∧ c = ⟨st.key, beBytes 12 st.sendNonce, fishareAD, d⟩
    ∧ st2 = { st with sendNonce := st.sendNonce + 1 } := by
  simp only [AEADStream.encrypt] at h
  cases hb : AEADStream.n2b st.sendNonce with
  | none => rw [hb] at h; cases h
  | some nonce =>
      rw [hb] at h
      dsimp only at h
      rw [Option.some.injEq, Prod.mk.injEq] at h
      obtain ⟨rfl, rfl⟩ := h
      simp only [AEADStream.n2b] at hb
      by_cases hlt : st.sendNonce < 256 ^ 12
      · rw [if_pos hlt, Option.some.injEq] at hb
        exact ⟨hlt, by rw [hb], rfl⟩
      · rw [if_neg hlt] at hb; cases hb

theorem decrypt_ok_iff (st : AEADStream) (ct : Ciphertext) (p : List Nat)
    (st2 : AEADStream) (h : AEADStream.decrypt st ct = .ok p st2) :
    st.recvNonce < 256 ^ 12
    ∧ ct.key = st.key ∧ ct.nonce = beBytes 12 st.recvNonce ∧ ct.ad = fishareAD
    ∧ p = ct.plain ∧ st2 = { st with recvNonce := st.recvNonce + 1 } := by
  simp only [AEADStream.decrypt] at h
  cases hb : AEADStream.n2b st.recvNonce with
  | none => rw [hb] at h; cases h
  | some nonce =>
      rw [hb] at h
      dsimp only at h
      have hnb : st.recvNonce < 256 ^ 12 ∧ nonce = beBytes 12 st.recvNonce := by
        simp only [AEADStream.n2b] at hb
        by_cases hlt : st.recvNonce < 256 ^ 12
        · rw [if_pos hlt, Option.some.injEq] at hb
          exact ⟨hlt, hb.symm⟩
        · rw [if_neg hlt] at hb; cases hb
      by_cases hc : ct.key = st.key ∧ ct.nonce = nonce ∧ ct.ad = fishareAD
      · rw [if_pos hc] at h
        cases h
        exact ⟨hnb.1, hc.1, hnb.2 ▸ hc.2.1, hc.2.2, rfl, rfl⟩
      · rw [if_neg hc] at h
        cases h

theorem encryptAll_spec (msgs : List (List Nat)) (st : AEADStream)
    (cs : List Ciphertext) (st2 : AEADStream)
    (h : encryptAll st msgs = some (cs, st2)) :
    st2.sendNonce = st.sendNonce + msgs.length
    ∧ st2.recvNonce = st.recvNonce ∧ st2.key = st.key
    ∧ cs.map Ciphertext.nonce
        = (List.range' st.sendNonce msgs.length).map (beBytes 12)
    ∧ (∀ i ∈ List.range' st.sendNonce msgs.length, i < 256 ^ 12) := by
  induction msgs generalizing st cs st2 with
  | nil =>
      simp only [encryptAll] at h
      cases h
      simp
  | cons d ds ih =>
      simp only [encryptAll] at h
      cases he : AEADStream.encrypt st d with
      | none => rw [he] at h; cases h
      | some r =>
          obtain ⟨c, st1⟩ := r
          rw [he] at h
          dsimp only at h
          cases hrest : encryptAll st1 ds with
          | none => rw [hrest] at h; cases h
          | some r2 =>
              obtain ⟨cs1, stf⟩ := r2
              rw [hrest] at h
              dsimp only at h
              rw [Option.some.injEq, Prod.mk.injEq] at h
              obtain ⟨rfl, rfl⟩ := h
              obtain ⟨hlt, rfl, rfl⟩ := encrypt_ok_iff st d c st1 he
              obtain ⟨h1, h2, h3, h4, h5⟩ := ih _ _ _ hrest
              refine ⟨by simp at h1 ⊢; omega, h2, h3, ?_, ?_⟩
              · simp only [List.map_cons, List.length_cons, List.range'_succ]
                rw [h4]
              · intro i hi
                rw [List.length_cons, List.range'_succ] at hi
                rcases List.mem_cons.mp hi with rfl | hi
                · exact hlt
                · exact h5 i hi

theorem decryptAll_spec (cts : List Ciphertext) (st : AEADStream)
    (ps : List (List Nat)) (st2 : AEADStream)
    (h : decryptAll st cts = some (ps, st2)) :
    st2.recvNonce = st.recvNonce + cts.length
    ∧ st2.sendNonce = st.sendNonce ∧ st2.key = st.key
    ∧ cts.map (fun c => beToNat c.nonce) = List.range' st.recvNonce cts.length
    ∧ ps = cts.map Ciphertext.plain := by
  induction cts generalizing st ps st2 with
  | nil =>
      simp only [decryptAll] at h
      cases h
      simp
  | cons c cs ih =>
      simp only [decryptAll] at h
      cases hd : AEADStream.decrypt st c with
      | ok p st1 =>
          rw [hd] at h
          dsimp only at h
          cases hrest : decryptAll st1 cs with
          | none => rw [hrest] at h; cases h
          | some r2 =>
              obtain ⟨ps1, stf⟩ := r2
              rw [hrest] at h
              dsimp only at h
              rw [Option.some.injEq, Prod.mk.injEq] at h
              obtain ⟨rfl, rfl⟩ := h
              obtain ⟨hlt, hk, hn, ha, rfl, rfl⟩ := decrypt_ok_iff st c p st1 hd
              obtain ⟨h1, h2, h3, h4, h5⟩ := ih _ _ _ hrest
              refine ⟨by simp at h1 ⊢; omega, h2, h3, ?_, by rw [List.map_cons, ← h5]⟩
              simp only [List.map_cons, List.length_cons, List.range'_succ]
              rw [h4, hn, beToNat_beBytes 12 st.recvNonce hlt]
      | authFail st1 => rw [hd] at h; cases h
      | nonceOverflow => rw [hd] at h; cases h

/-- C3: in every AEAD session both counters start at 0; a successful encrypt
increments the send counter by exactly 1 and uses the 12-byte big-endian
encoding of the old counter as its nonce; a successful decrypt does the same
on the receive side; below `2^64` the upper 4 nonce bytes are zero; a run of
successful encrypts from a fresh stream uses the nonces `BE(0), BE(1), ...`
with no repetition, and a run of successful decrypts from a fresh stream
consumes strictly increasing nonce values `0, 1, 2, ...`. -/
theorem c3_nonce_discipline :
    (∀ key, (AEADStream.init key).sendNonce = 0
        ∧ (AEADStream.init key).recvNonce = 0)
    ∧ (∀ st d c st2, AEADStream.encrypt st d = some (c, st2) →
        st2.sendNonce = st.sendNonce + 1 ∧ st2.recvNonce = st.recvNonce
        ∧ c.nonce = beBytes 12 st.sendNonce)
    ∧ (∀ st ct p st2, AEADStream.decrypt st ct = .ok p st2 →
        st2.recvNonce = st.recvNonce + 1 ∧ st2.sendNonce = st.sendNonce
        ∧ ct.nonce = beBytes 12 st.recvNonce)
    ∧ (∀ i, i < 2 ^ 64 → beBytes 12 i = List.replicate 4 0 ++ beBytes 8 i)
    ∧ (∀ key msgs cs st2,
        encryptAll (AEADStream.init key) msgs = some (cs, st2) →
        cs.map Ciphertext.nonce = (List.range msgs.length).map (beBytes 12)
        ∧ (cs.map Ciphertext.nonce).Nodup)
    ∧ (∀ key cts ps st2,
        decryptAll (AEADStream.init key) cts = some (ps, st2) →
        cts.map (fun c => beToNat c.nonce) = List.range cts.length) := by
  refine ⟨fun key => ⟨rfl, rfl⟩, ?_, ?_, ?_, ?_, ?_⟩
  · intro st d c st2 h
    obtain ⟨hlt, rfl, rfl⟩ := encrypt_ok_iff st d c st2 h
    exact ⟨rfl, rfl, rfl⟩
  · intro st ct p st2 h
    obtain ⟨hlt, hk, hn, ha, rfl, rfl⟩ := decrypt_ok_iff st ct p st2 h
    exact ⟨rfl, rfl, hn⟩
  · intro i hi
    have h8 : i < 256 ^ 8 := by norm_num at hi ⊢; omega
    have := beBytes_split 4 8 i h8
    rw [beBytes_zero] at this
    exact this
  · intro key msgs cs st2 h
    obtain ⟨h1, h2, h3, h4, h5⟩ := encryptAll_spec msgs (AEADStream.init key) cs st2 h
    have hr : List.range' (AEADStream.init key).sendNonce msgs.length
        = List.range msgs.length := by
      rw [List.range_eq_range']
      rfl
    rw [hr] at h4 h5
    refine ⟨h4, ?_⟩
    rw [h4]
    refine List.Nodup.map_on ?_ (List.nodup_range msgs.length)
    intro x hx y hy hxy
    exact beBytes_inj 12 x y (h5 x hx) (h5 y hy) hxy
  · intro key cts ps st2 h
    obtain ⟨h1, h2, h3, h4, h5⟩ := decryptAll_spec cts (AEADStream.init key) ps st2 h
    rw [h4, List.range_eq_range']
    rfl

/-- Witness for `c3_nonce_discipline`: a concrete encrypt and decrypt on a
fresh stream with key 5 discharge the hypotheses of the step conjuncts. -/
theorem c3_nonce_discipline_witness :
    AEADStream.encrypt (AEADStream.init 5) [1, 2]
      = some (⟨5, beBytes 12 0, fishareAD, [1, 2]⟩, ⟨5, 1, 0⟩)
    ∧ (⟨5, 1, 0⟩ : AEADStream).sendNonce = (AEADStream.init 5).sendNonce + 1
    ∧ AEADStream.decrypt (AEADStream.init 5) ⟨5, beBytes 12 0, fishareAD, [9]⟩
      = .ok [9] ⟨5, 0, 1⟩
    ∧ (⟨5, 0, 1⟩ : AEADStream).recvNonce = (AEADStream.init 5).recvNonce + 1 :=
  ⟨by decide,
   (c3_nonce_discipline.2.1 (AEADStream.init 5) [1, 2]
     ⟨5, beBytes 12 0, fishareAD, [1, 2]⟩ ⟨5, 1, 0⟩ (by decide)).1,
   by decide,
   (c3_nonce_discipline.2.2.1 (AEADStream.init 5)
     ⟨5, beBytes 12 0, fishareAD, [9]⟩ [9] ⟨5, 0, 1⟩ (by decide)).1⟩

/-! ### C4: file round-trip through chunking and latin-1 -/

theorem chunksOf_join (n : Nat) (l : List Nat) (hn : 0 < n) :
    (chunksOf n l).flatten = l := by
  rw [chunksOf]
  by_cases he : l = [] ∨ n = 0
  · rcases he with rfl | rfl
    · simp
    · omega
  · rw [dif_neg he]
    rw [List.flatten_cons, chunksOf_join n (l.drop n) hn, List.take_append_drop]
termination_by l.length
decreasing_by
  have hlne : l ≠ [] := fun hc => he (Or.inl hc)
  have hnz : n ≠ 0 := fun hc => he (Or.inr hc)
  have hpos : 0 < l.length := List.length_pos.mpr hlne
  rw [List.length_drop]
  omega

theorem chunksOf_mem_ne_nil (n : Nat) (l : List Nat) (c : List Nat)
    (hc : c ∈ chunksOf n l) : c ≠ [] := by
  rw [chunksOf] at hc
  by_cases he : l = [] ∨ n = 0
  · rw [dif_pos he] at hc
    cases hc
  · rw [dif_neg he] at hc
    have hlne : l ≠ [] := fun hx => he (Or.inl hx)
    have hnz : n ≠ 0 := fun hx => he (Or.inr hx)
    have hpos : 0 < l.length := List.length_pos.mpr hlne
    rcases List.mem_cons.mp hc with rfl | hc
    · intro hx
      have hx2 := congrArg List.length hx
      rw [List.length_take, List.length_nil] at hx2
      rcases Nat.min_eq_zero_iff.mp hx2 with h0 | h0
      · exact hnz h0
      · omega
    · exact chunksOf_mem_ne_nil n (l.drop n) c hc
termination_by l.length
decreasing_by
  have hlne : l ≠ [] := fun hx => he (Or.inl hx)
  have hnz : n ≠ 0 := fun hx => he (Or.inr hx)
  have hpos : 0 < l.length := List.length_pos.mpr hlne
  rw [List.length_drop]
  omega

theorem chunksOf_mem_length_le (n : Nat) (l : List Nat) (c : List Nat)
    (hc : c ∈ chunksOf n l) : c.length ≤ n := by
  rw [chunksOf] at hc
  by_cases he : l = [] ∨ n = 0
  · rw [dif_pos he] at hc
    cases hc
  · rw [dif_neg he] at hc
    have hlne : l ≠ [] := fun hx => he (Or.inl hx)
    have hnz : n ≠ 0 := fun hx => he (Or.inr hx)
    have hpos : 0 < l.length := List.length_pos.mpr hlne
    rcases List.mem_cons.mp hc with rfl | hc
    · rw [List.length_take]
      omega
    · exact chunksOf_mem_length_le n (l.drop n) c hc
termination_by l.length
decreasing_by
  have hlne : l ≠ [] := fun hx => he (Or.inl hx)
  have hnz : n ≠ 0 := fun hx => he (Or.inr hx)
  have hpos : 0 < l.length := List.length_pos.mpr hlne
  rw [List.length_drop]
  omega

theorem recvFileLoop_exact (msgs : List (List Nat))
    (hne : ∀ m ∈ msgs, m ≠ [])
    (hlt : ∀ m ∈ msgs, ∀ b ∈ m, b < 256) :
    recvFileLoop msgs (((msgs.map List.length).sum : Nat) : Int)
      = some msgs.flatten := by
  induction msgs with
  | nil => simp [recvFileLoop]
  | cons m rest ih =>
      have hm : m ≠ [] := hne m (List.mem_cons_self m rest)
      have hmlen : 0 < m.length := List.length_pos.mpr hm
      have hsum : 0 < ((m :: rest).map List.length).sum := by
        rw [List.map_cons, List.sum_cons]
        omega
      have hr : ¬ ((((m :: rest).map List.length).sum : Nat) : Int) ≤ 0 :=
        not_le.mpr (by exact_mod_cast hsum)
      rw [recvFileLoop, if_neg hr]
      have henc : pyEncodeLatin1 m = some m := by
        rw [pyEncodeLatin1, if_pos]
        rw [List.all_eq_true]
        intro b hb
        exact decide_eq_true (hlt m (List.mem_cons_self m rest) b hb)
      rw [henc]
      dsimp only
      have harg : (((((m :: rest).map List.length).sum : Nat) : Int)
          - (m.length : Int)) = (((rest.map List.length).sum : Nat) : Int) := by
        rw [List.map_cons, List.sum_cons]
        push_cast
        ring
      rw [harg, ih (fun x hx => hne x (List.mem_cons_of_mem m hx))
        (fun x hx => hlt x (List.mem_cons_of_mem m hx))]
      simp [List.flatten_cons]

/-- C4: for any file `F` (a byte string, all values < 256), sending it through
the 65 536-byte chunking with the latin-1 byte-to-codepoint mapping and
running the receiver's write loop for `size = |F|` writes back exactly the
bytes of `F`; every chunk is nonempty and at most `CHUNK_SIZE` long, and the
chunks concatenate to `F`. -/
theorem c4_file_roundtrip (F : List Nat) (hF : ∀ b ∈ F, b < 256) :
    recvFileLoop (senderChunkMsgs F) ((F.length : Nat) : Int) = some F
    ∧ (∀ c ∈ chunksOf CHUNK_SIZE F, c.length ≤ CHUNK_SIZE ∧ c ≠ [])
    ∧ (chunksOf CHUNK_SIZE F).flatten = F := by
  have hckpos : 0 < CHUNK_SIZE := by norm_num [CHUNK_SIZE]
  have hjoin : (chunksOf CHUNK_SIZE F).flatten = F := chunksOf_join _ _ hckpos
  have hmsgs : senderChunkMsgs F = chunksOf CHUNK_SIZE F := by
    rw [senderChunkMsgs]
    have : ∀ L : List (List Nat), L.map pyDecodeLatin1 = L := by
      intro L
      induction L with
      | nil => rfl
      | cons x xs ihx => simp [pyDecodeLatin1, ihx]
    exact this _
  have hmemF : ∀ c ∈ chunksOf CHUNK_SIZE F, ∀ b ∈ c, b < 256 := by
    intro c hc b hb
    refine hF b ?_
    rw [← hjoin]
    exact List.mem_flatten.mpr ⟨c, hc, hb⟩
  have hlen : ((chunksOf CHUNK_SIZE F).map List.length).sum = F.length := by
    rw [← List.length_flatten, hjoin]
  refine ⟨?_, ?_, hjoin⟩
  · rw [hmsgs, ← hlen, recvFileLoop_exact _ (fun c hc =>
      chunksOf_mem_ne_nil _ _ c hc) hmemF, hjoin]
  · intro c hc
    exact ⟨chunksOf_mem_length_le _ _ c hc, chunksOf_mem_ne_nil _ _ c hc⟩

/-- Witness for `c4_file_roundtrip` on the concrete file `[0, 255, 7]`. -/
theorem c4_file_roundtrip_witness :
    (∀ b ∈ ([0, 255, 7] : List Nat), b < 256)
    ∧ recvFileLoop (senderChunkMsgs [0, 255, 7])
        ((([0, 255, 7] : List Nat).length : Nat) : Int) = some [0, 255, 7] :=
  ⟨by decide, (c4_file_roundtrip [0, 255, 7] (by decide)).1⟩

/-! ### C5: framing + AEAD round-trip -/

/-- C5: for any byte string `B` with `|B| ≤ 16 MiB`, sending it through
`send_json` (seal at send counter `i`, prefix the 4-byte big-endian length)
and receiving the frame with `recv_json` on a stream with the same key whose
receive counter is also `i` yields exactly `B`, and both counters advance to
`i + 1`. -/
theorem c5_frame_roundtrip (key i x y : Nat) (B : List Nat)
    (hB : B.length ≤ 16 * 1024 * 1024) (hi : i < 256 ^ 12) :
    Proto.send_json_aead ⟨key, i, x⟩ B
      = some (frameOf key i B, ⟨key, i + 1, x⟩)
    ∧ Proto.recv_json_aead ⟨key, y, i⟩ (frameOf key i B)
      = .ok B ⟨key, y, i + 1⟩ := by
  have hct : B.length + 16 < 2 ^ 32 := by
    have : (16 : Nat) * 1024 * 1024 + 16 < 2 ^ 32 := by norm_num
    omega
  have hinum := hi
  have hctnum := hct
  norm_num at hinum hctnum
  constructor
  · simp [Proto.send_json_aead, AEADStream.encrypt, AEADStream.n2b, ctLen,
      frameOf, hi, hct, hinum, hctnum]
  · have hhdr : beToNat (beBytes 4 (B.length + 16)) = B.length + 16 :=
      beToNat_beBytes 4 _ (by norm_num at hct ⊢; omega)
    simp [Proto.recv_json_aead, AEADStream.decrypt, AEADStream.n2b, ctLen,
      frameOf, hhdr, hi, hinum, hctnum]

/-- Witness for `c5_frame_roundtrip` at key 1, counter 0, `B = [10, 20]`. -/
theorem c5_frame_roundtrip_witness :
    ([10, 20] : List Nat).length ≤ 16 * 1024 * 1024 ∧ 0 < 256 ^ 12
    ∧ Proto.send_json_aead ⟨1, 0, 7⟩ [10, 20]
        = some (frameOf 1 0 [10, 20], ⟨1, 1, 7⟩)
    ∧ Proto.recv_json_aead ⟨1, 9, 0⟩ (frameOf 1 0 [10, 20])
        = .ok [10, 20] ⟨1, 9, 1⟩ :=
  ⟨by decide, by positivity,
   (c5_frame_roundtrip 1 0 7 9 [10, 20] (by decide) (by positivity)).1,
   (c5_frame_roundtrip 1 0 7 9 [10, 20] (by decide) (by positivity)).2⟩

/-! ### C6, C7: retry policy -/

theorem run_attempt_snd_retryable (dev : String) (nfiles total : Nat) (now : ℚ)
    (hh last : Bool) (o : AttemptOutcome) (c : SendSt)
    (ho : retryable o = true) :
    (run_attempt dev nfiles total now hh last o c).2 = none := by
  cases o with
  | preFail m =>
      simp only [run_attempt]
      split <;> rfl
  | streamFail m sent =>
      simp only [run_attempt]
      split <;> rfl
  | rejected => simp [retryable] at ho
  | success cs => simp [retryable] at ho

theorem run_attempt_hist_continue (dev : String) (nfiles total : Nat)
    (now : ℚ) (hh : Bool) (o : AttemptOutcome) (c : SendSt)
    (ho : retryable o = true) :
    (run_attempt dev nfiles total now hh false o c).1.hist = c.hist := by
  cases o with
  | preFail m => rfl
  | streamFail m sent => rfl
  | rejected => simp [retryable] at ho
  | success cs => simp [retryable] at ho

theorem send_to_aux_step (dev : String) (nfiles total : Nat) (now : ℚ)
    (hh : Bool) (script : Nat → AttemptOutcome) (rem idx : Nat) (c : SendSt) :
    send_to_aux dev nfiles total now hh script (rem + 1) idx c =
      match (run_attempt dev nfiles total now hh (idx == MAX_RETRIES - 1)
          (script idx) c).2 with
      | some true =>
          ((run_attempt dev nfiles total now hh (idx == MAX_RETRIES - 1)
            (script idx) c).1, .ok (idx + 1))
      | some false =>
          ((run_attempt dev nfiles total now hh (idx == MAX_RETRIES - 1)
            (script idx) c).1, .refused (idx + 1))
      | none =>
          send_to_aux dev nfiles total now hh script rem (idx + 1)
            (run_attempt dev nfiles total now hh (idx == MAX_RETRIES - 1)
              (script idx) c).1 := rfl

theorem send_aux_success (dev : String) (nfiles total : Nat) (now : ℚ)
    (hh : Bool) (script : Nat → AttemptOutcome) (cs : List Nat) (k : Nat) :
    ∀ rem idx c, k < rem →
    (∀ i, i < k → retryable (script (idx + i)) = true) →
    script (idx + k) = .success cs →
    (send_to_aux dev nfiles total now hh script rem idx c).2
      = .ok (idx + k + 1) := by
  induction k with
  | zero =>
      intro rem idx c hrem hpre hs
      obtain ⟨r, rfl⟩ : ∃ r, rem = r + 1 := ⟨rem - 1, by omega⟩
      rw [send_to_aux_step]
      rw [Nat.add_zero] at hs
      rw [hs]
      rfl
  | succ k ih =>
      intro rem idx c hrem hpre hs
      obtain ⟨r, rfl⟩ : ∃ r, rem = r + 1 := ⟨rem - 1, by omega⟩
      rw [send_to_aux_step]
      have h0 : retryable (script idx) = true := by
        have := hpre 0 (Nat.succ_pos k)
        simpa using this
      rw [run_attempt_snd_retryable _ _ _ _ _ _ _ _ h0]
      have heq : idx + 1 + k = idx + (k + 1) := by omega
      have := ih r (idx + 1)
        (run_attempt dev nfiles total now hh (idx == MAX_RETRIES - 1)
          (script idx) c).1
        (by omega)
        (fun i hi => by
          have := hpre (i + 1) (by omega)
          simpa [Nat.add_assoc, Nat.add_comm, Nat.add_left_comm] using this)
        (by rw [heq]; exact hs)
      rw [this]
      congr 1
      omega

/-- C6 counterexample: attempt 1 receives an accepting response, then fails
while streaming (after 100 of 200 bytes); the claim says this does not cause
a new attempt, but `send_to` retries and attempt 2 succeeds — the result
records success after 2 attempts. -/
theorem c6_stream_error_retried_counterexample :
    (TransferService.send_to "d" 1 200 0 true
      (fun n => match n with
        | 0 => AttemptOutcome.streamFail "io error" [100]
        | _ => AttemptOutcome.success [100, 100])
      (AppState.init true)).2 = SendResult.ok 2 := rfl

/-- C6 amended: any exception during an attempt — before the RESPONSE step or
after it, while streaming — is caught by the `except` arm and triggers the
next attempt; a run whose first `k` attempts fail either way (`k <
MAX_RETRIES`) and whose attempt `k` streams to completion returns success
after `k + 1` attempts. -/
theorem c6_amended_all_errors_retried (dev : String) (nfiles total : Nat)
    (now : ℚ) (hh : Bool) (script : Nat → AttemptOutcome) (s0 : AppState)
    (cs : List Nat) (k : Nat) (hk : k < MAX_RETRIES)
    (hpre : ∀ i, i < k → retryable (script i) = true)
    (hs : script k = .success cs) :
    (TransferService.send_to dev nfiles total now hh script s0).2
      = SendResult.ok (k + 1) := by
  have := send_aux_success dev nfiles total now hh script cs k MAX_RETRIES 0
    ⟨s0, []⟩ hk (fun i hi => by simpa using hpre i hi) (by simpa using hs)
  simpa [TransferService.send_to] using this

/-- Witness for `c6_amended_all_errors_retried`: a stream failure on attempt
1 followed by a successful attempt 2. -/
theorem c6_amended_witness :
    (1 < MAX_RETRIES)
    ∧ (TransferService.send_to "d" 1 200 0 true
        (fun n => match n with
          | 0 => AttemptOutcome.streamFail "io error" [60]
          | _ => AttemptOutcome.success [100, 100])
        (AppState.init true)).2 = SendResult.ok (1 + 1) :=
  ⟨by decide,
   c6_amended_all_errors_retried "d" 1 200 0 true
     (fun n => match n with
       | 0 => AttemptOutcome.streamFail "io error" [60]
       | _ => AttemptOutcome.success [100, 100])
     (AppState.init true) [100, 100] 1 (by decide)
     (fun i hi => by interval_cases i <;> rfl) rfl⟩

theorem reject_state_transfer_status (s : AppState) (dev : String) (now : ℚ) :
    (((s.start_transfer dev now).set_transfer_status dev
        .canceled).update_progress dev 1 0 now).transfer_status dev
      = some .canceled := by
  simp [AppState.update_progress, AppState.set_transfer_status,
    AppState.start_transfer, upd]

theorem reject_state_progress (s : AppState) (dev : String) (now : ℚ) :
    (((s.start_transfer dev now).set_transfer_status dev
        .canceled).update_progress dev 1 0 now).progress dev = some 1 := by
  simp [AppState.update_progress, AppState.set_transfer_status,
    AppState.start_transfer, upd, pyClamp]

theorem send_aux_rejected (dev : String) (nfiles total : Nat) (now : ℚ)
    (hh : Bool) (script : Nat → AttemptOutcome) (k : Nat) :
    ∀ rem idx c, k < rem →
    (∀ i, i < k → retryable (script (idx + i)) = true) →
    (∀ i, i < k → (idx + i == MAX_RETRIES - 1) = false) →
    script (idx + k) = .rejected →
    (send_to_aux dev nfiles total now hh script rem idx c).2
        = .refused (idx + k + 1)
    ∧ (send_to_aux dev nfiles total now hh script rem idx
        c).1.st.transfer_status dev = some .canceled
    ∧ (send_to_aux dev nfiles total now hh script rem idx c).1.st.progress dev
        = some 1
    ∧ (send_to_aux dev nfiles total now hh script rem idx c).1.hist
        = (if hh then [cancelRec nfiles total] else []) ++ c.hist := by
  induction k with
  | zero =>
      intro rem idx c hrem hpre hlast hs
      obtain ⟨r, rfl⟩ : ∃ r, rem = r + 1 := ⟨rem - 1, by omega⟩
      rw [Nat.add_zero] at hs
      rw [send_to_aux_step, hs]
      refine ⟨rfl, ?_, ?_, rfl⟩
      · exact reject_state_transfer_status c.st dev now
      · exact reject_state_progress c.st dev now
  | succ k ih =>
      intro rem idx c hrem hpre hlast hs
      obtain ⟨r, rfl⟩ : ∃ r, rem = r + 1 := ⟨rem - 1, by omega⟩
      rw [send_to_aux_step]
      have h0 : retryable (script idx) = true := by
        have := hpre 0 (Nat.succ_pos k)
        simpa using this
      have hb : (idx == MAX_RETRIES - 1) = false := by
        have := hlast 0 (Nat.succ_pos k)
        simpa using this
      rw [run_attempt_snd_retryable _ _ _ _ _ _ _ _ h0]
      have heq : idx + 1 + k = idx + (k + 1) := by omega
      have hrec := ih r (idx + 1)
        (run_attempt dev nfiles total now hh (idx == MAX_RETRIES - 1)
          (script idx) c).1
        (by omega)
        (fun i hi => by
          have := hpre (i + 1) (by omega)
          simpa [Nat.add_assoc, Nat.add_comm, Nat.add_left_comm] using this)
        (fun i hi => by
          have := hlast (i + 1) (by omega)
          simpa [Nat.add_assoc, Nat.add_comm, Nat.add_left_comm] using this)
        (by rw [heq]; exact hs)
      have hhist : (run_attempt dev nfiles total now hh
          (idx == MAX_RETRIES - 1) (script idx) c).1.hist = c.hist := by
        rw [hb]
        exact run_attempt_hist_continue dev nfiles total now hh
          (script idx) c h0
      refine ⟨?_, hrec.2.1, hrec.2.2.1, ?_⟩
      · rw [hrec.1]
        congr 1
        omega
      · rw [hrec.2.2.2, hhist]

/-- C7: whenever an attempt's response has `accept == false` (after any mix
of earlier failed attempts), the sender marks the transfer CANCELED, sets the
progress ratio to 1, records exactly one history entry with status
`"canceled"` and error message `"Transfer rejected by recipient"`, and
returns `False` after that attempt — an explicit rejection is never
retried. -/
theorem c7_reject_no_retry (dev : String) (nfiles total : Nat) (now : ℚ)
    (script : Nat → AttemptOutcome) (s0 : AppState) (k : Nat)
    (hk : k < MAX_RETRIES)
    (hpre : ∀ i, i < k → retryable (script i) = true)
    (hrej : script k = .rejected) :
    (TransferService.send_to dev nfiles total now true script s0).2
        = .refused (k + 1)
    ∧ (TransferService.send_to dev nfiles total now true script
        s0).1.st.transfer_status dev = some .canceled
    ∧ (TransferService.send_to dev nfiles total now true script
        s0).1.st.progress dev = some 1
    ∧ (TransferService.send_to dev nfiles total now true script s0).1.hist
        = [cancelRec nfiles total] := by
  have hlast : ∀ i, i < k → ((0 + i : Nat) == MAX_RETRIES - 1) = false := by
    intro i hi
    have hne : (0 + i : Nat) ≠ MAX_RETRIES - 1 := by
      simp only [MAX_RETRIES] at hk ⊢
      omega
    exact beq_eq_false_iff_ne.mpr hne
  have := send_aux_rejected dev nfiles total now true script k MAX_RETRIES 0
    ⟨s0, []⟩ hk (fun i hi => by simpa using hpre i hi) hlast
    (by simpa using hrej)
  refine ⟨by simpa [TransferService.send_to] using this.1,
    by simpa [TransferService.send_to] using this.2.1,
    by simpa [TransferService.send_to] using this.2.2.1,
    by simpa [TransferService.send_to] using this.2.2.2⟩

/-- Witness for `c7_reject_no_retry`: rejection on the first attempt. -/
theorem c7_reject_no_retry_witness :
    (0 < MAX_RETRIES)
    ∧ (TransferService.send_to "d" 2 170 0 true
        (fun _ => AttemptOutcome.rejected) (AppState.init true)).1.hist
      = [cancelRec 2 170] :=
  ⟨by decide,
   (c7_reject_no_retry "d" 2 170 0 (fun _ => AttemptOutcome.rejected)
     (AppState.init true) 0 (by decide) (fun i hi => absurd hi (Nat.not_lt_zero i))
     rfl).2.2.2⟩

/-! ### C8: device pruning -/

/-- C8: after `prune_devices` with TTL 6 s at time `now`, a device present
before survives exactly when `now - last_seen < 6` (so precisely those with
`now - last_seen ≥ 6` are removed, and no device appears from nowhere), every
key still carrying a progress entry is a surviving device, and every entry of
`selected_device_ids` refers to a surviving device. -/
theorem c8_prune_exact (s : AppState) (now : ℚ) :
    (∀ k d, s.devices k = some d →
      ((s.prune_devices now 6).devices k = some d ↔ now - d.last_seen < 6))
    ∧ (∀ k d, (s.prune_devices now 6).devices k = some d →
        s.devices k = some d)
    ∧ (∀ k, (s.prune_devices now 6).devices k = none →
        (s.prune_devices now 6).progress k = none)
    ∧ (∀ k, k ∈ (s.prune_devices now 6).selected_device_ids →
        ((s.prune_devices now 6).devices k).isSome = true) := by
  refine ⟨?_, ?_, ?_, ?_⟩
  · intro k d hd
    simp only [AppState.prune_devices, hd]
    by_cases hsee : now - d.last_seen < 6
    · simp [hsee]
    · simp [hsee]
  · intro k d hd
    simp only [AppState.prune_devices] at hd
    cases hk : s.devices k with
    | none => rw [hk] at hd; cases hd
    | some d2 =>
        rw [hk] at hd
        dsimp only at hd
        by_cases hsee : now - d2.last_seen < 6
        · rw [if_pos hsee] at hd
          obtain rfl := Option.some.inj hd
          rfl
        · rw [if_neg hsee] at hd
          cases hd
  · intro k hnone
    simp only [AppState.prune_devices] at hnone ⊢
    simp [hnone]
  · intro k hmem
    simp only [AppState.prune_devices] at hmem ⊢
    exact (List.mem_filter.mp hmem).2

/-- Witness for `c8_prune_exact`: a device last seen at `t = 10` survives a
prune at `now = 12` (TTL 6), by the retention direction of the theorem. -/
theorem c8_prune_exact_witness :
    (((AppState.init true).upsert_device ⟨"a", "A", "h", 1, .available, 0⟩
        10).devices "a" = some ⟨"a", "A", "h", 1, .available, 10⟩)
    ∧ ((((AppState.init true).upsert_device ⟨"a", "A", "h", 1, .available, 0⟩
        10).prune_devices 12 6).devices "a"
          = some ⟨"a", "A", "h", 1, .available, 10⟩) :=
  ⟨by decide,
   ((c8_prune_exact ((AppState.init true).upsert_device
       ⟨"a", "A", "h", 1, .available, 0⟩ 10) 12).1 "a"
     ⟨"a", "A", "h", 1, .available, 10⟩ (by decide)).mpr (by norm_num)⟩

/-! ### C9: progress monotonicity and the retry reset -/

theorem update_progress_self (s : AppState) (dev : String) (r : ℚ) (b : Nat)
    (now : ℚ) :
    (s.update_progress dev r b now).progress dev = some (pyClamp r) := by
  by_cases hb : b > 0
  · simp only [AppState.update_progress, if_pos hb]
    cases hst : s.transfer_start_times dev with
    | none => simp [hst, upd]
    | some t0 =>
        simp only [hst]
        split <;> simp [upd]
  · simp [AppState.update_progress, hb, upd]

theorem pyClamp_mono (a b : ℚ) (h : a ≤ b) : pyClamp a ≤ pyClamp b :=
  max_le_max (le_refl 0) (min_le_min (le_refl 1) h)

theorem chunk_states_chain_cons (dev : String) (total : Nat) (now : ℚ) :
    ∀ (cs : List Nat) (sent : Nat) (s : AppState),
    (total = 0 ∨ s.progress dev = some (pyClamp ((sent : ℚ) / (total : ℚ)))) →
    List.Chain' (fun a b : AppState =>
        ((a.progress dev).getD 0) ≤ ((b.progress dev).getD 0))
      (s :: chunk_states dev total now cs sent s) := by
  intro cs
  induction cs with
  | nil =>
      intro sent s hs
      simp [chunk_states]
  | cons c cs2 ih =>
      intro sent s hs
      rw [chunk_states]
      by_cases ht : total > 0
      · rw [if_pos ht]
        have hcast : (0 : ℚ) < (total : ℚ) := by exact_mod_cast ht
        have hdiv : ((sent : ℚ) / (total : ℚ))
            ≤ (((sent + c : Nat) : ℚ) / (total : ℚ)) := by
          apply div_le_div_of_nonneg_right ?_ hcast.le
          exact_mod_cast Nat.le_add_right sent c
        rcases hs with h0 | hp
        · omega
        · refine List.Chain'.cons ?_ ?_
          · rw [hp, update_progress_self]
            simp only [Option.getD_some]
            exact pyClamp_mono _ _ hdiv
          · exact ih (sent + c) _ (Or.inr (update_progress_self ..))
      · rw [if_neg ht]
        refine List.Chain'.cons (le_refl _) ?_
        exact ih (sent + c) s (Or.inl (by omega))

/-- C9 counterexample: with `total = 200`, attempt 1 streams one 100-byte
chunk (progress published 1/2) and then fails; at the start of attempt 2 the
code runs only `start_transfer` before streaming, and the published progress
for the destination is still 1/2, not 0 — the aggregate does not reset to 0
before the new attempt streams data. -/
theorem c9_no_reset_counterexample :
    (((run_attempt "d" 1 200 0 true false
          (AttemptOutcome.streamFail "io" [100])
          ⟨AppState.init true, []⟩).1.st.start_transfer "d" 0).progress "d"
        = some (1 / 2))
    ∧ ¬ (((run_attempt "d" 1 200 0 true false
          (AttemptOutcome.streamFail "io" [100])
          ⟨AppState.init true, []⟩).1.st.start_transfer "d" 0).progress "d"
        = some 0) := by
  have h1 : (run_attempt "d" 1 200 0 true false
      (AttemptOutcome.streamFail "io" [100])
      ⟨AppState.init true, []⟩).1.st
      = ((AppState.init true).start_transfer "d" 0).update_progress "d"
          (((100 : Nat) : ℚ) / ((200 : Nat) : ℚ)) 100 0 := rfl
  have hmid : (((run_attempt "d" 1 200 0 true false
      (AttemptOutcome.streamFail "io" [100])
      ⟨AppState.init true, []⟩).1.st.start_transfer "d" 0).progress "d")
      = some (pyClamp (((100 : Nat) : ℚ) / ((200 : Nat) : ℚ))) := by
    rw [h1]
    exact update_progress_self ..
  have hval : pyClamp (((100 : Nat) : ℚ) / ((200 : Nat) : ℚ)) = 1 / 2 := by
    rw [pyClamp]
    push_cast
    norm_num
  constructor
  · rw [hmid, hval]
  · rw [hmid, hval]
    intro hcontra
    have := Option.some.inj hcontra
    norm_num at this

/-- C9 amended: within one attempt the published aggregate progress is
monotonically non-decreasing (each streamed chunk publishes
`clamp(sent_total / total)` with a non-decreasing numerator); on retry the
byte counter, speed and status are re-initialized by `start_transfer`, but
the published progress ratio is not touched: it keeps its previous value
until the first chunk of the new attempt publishes a fresh ratio. -/
theorem c9_amended_monotone_no_reset :
    (∀ (dev : String) (total : Nat) (now : ℚ) (cs : List Nat) (sent : Nat)
        (s : AppState),
      List.Chain' (fun a b : AppState =>
          ((a.progress dev).getD 0) ≤ ((b.progress dev).getD 0))
        (chunk_states dev total now cs sent s))
    ∧ (∀ (s : AppState) (dev : String) (now : ℚ),
        (AppState.start_transfer s dev now).progress = s.progress) := by
  constructor
  · intro dev total now cs sent s
    cases cs with
    | nil => simp [chunk_states]
    | cons c cs2 =>
        rw [chunk_states]
        by_cases ht : total > 0
        · rw [if_pos ht]
          exact chunk_states_chain_cons dev total now cs2 (sent + c)
            (s.update_progress dev (((sent + c : Nat) : ℚ) / (total : ℚ))
              (sent + c) now)
            (Or.inr (update_progress_self s dev _ (sent + c) now))
        · rw [if_neg ht]
          exact chunk_states_chain_cons dev total now cs2 (sent + c) s
            (Or.inl (by omega))
  · intro s dev now
    rfl

/-! ### C10: frame conditions of the per-device operations -/

theorem start_transfer_frame (s : AppState) (k k2 : String) (now : ℚ)
    (hne : k2 ≠ k) :
    (s.start_transfer k now).progress k2 = s.progress k2
    ∧ (s.start_transfer k now).transfer_speeds k2 = s.transfer_speeds k2
    ∧ (s.start_transfer k now).transfer_start_times k2
        = s.transfer_start_times k2
    ∧ (s.start_transfer k now).transfer_bytes k2 = s.transfer_bytes k2
    ∧ (s.start_transfer k now).transfer_status k2 = s.transfer_status k2
    ∧ (s.start_transfer k now).devices = s.devices
    ∧ (s.start_transfer k now).selected_device_ids = s.selected_device_ids
    ∧ (s.start_transfer k now).selected_files = s.selected_files
    ∧ (s.start_transfer k now).status = s.status := by
  simp [AppState.start_transfer, upd, hne]

theorem update_progress_frame (s : AppState) (k k2 : String) (r : ℚ) (b : Nat)
    (now : ℚ) (hne : k2 ≠ k) :
    (s.update_progress k r b now).progress k2 = s.progress k2
    ∧ (s.update_progress k r b now).transfer_speeds k2 = s.transfer_speeds k2
    ∧ (s.update_progress k r b now).transfer_start_times k2
        = s.transfer_start_times k2
    ∧ (s.update_progress k r b now).transfer_bytes k2 = s.transfer_bytes k2
    ∧ (s.update_progress k r b now).transfer_status k2 = s.transfer_status k2
    ∧ (s.update_progress k r b now).devices = s.devices
    ∧ (s.update_progress k r b now).selected_device_ids
        = s.selected_device_ids
    ∧ (s.update_progress k r b now).selected_files = s.selected_files
    ∧ (s.update_progress k r b now).status = s.status := by
  by_cases hb : b > 0
  · simp only [AppState.update_progress, if_pos hb]
    cases hst : s.transfer_start_times k with
    | none => simp [hst, upd, hne]
    | some t0 =>
        simp only [hst]
        split <;> simp [upd, hne]
  · simp [AppState.update_progress, hb, upd, hne]

theorem set_transfer_status_frame (s : AppState) (k k2 : String)
    (st : TransferStatus) (hne : k2 ≠ k) :
    (s.set_transfer_status k st).progress k2 = s.progress k2
    ∧ (s.set_transfer_status k st).transfer_speeds k2 = s.transfer_speeds k2
    ∧ (s.set_transfer_status k st).transfer_start_times k2
        = s.transfer_start_times k2
    ∧ (s.set_transfer_status k st).transfer_bytes k2 = s.transfer_bytes k2
    ∧ (s.set_transfer_status k st).transfer_status k2 = s.transfer_status k2
    ∧ (s.set_transfer_status k st).devices = s.devices
    ∧ (s.set_transfer_status k st).selected_device_ids
        = s.selected_device_ids
    ∧ (s.set_transfer_status k st).selected_files = s.selected_files
    ∧ (s.set_transfer_status k st).status = s.status := by
  simp [AppState.set_transfer_status, upd, hne]

theorem clear_progress_frame (s : AppState) (k k2 : String) (hne : k2 ≠ k) :
    (s.clear_progress k).progress k2 = s.progress k2
    ∧ (s.clear_progress k).transfer_speeds k2 = s.transfer_speeds k2
    ∧ (s.clear_progress k).transfer_start_times k2 = s.transfer_start_times k2
    ∧ (s.clear_progress k).transfer_bytes k2 = s.transfer_bytes k2
    ∧ (s.clear_progress k).transfer_status k2 = s.transfer_status k2
    ∧ (s.clear_progress k).devices = s.devices
    ∧ (s.clear_progress k).selected_device_ids = s.selected_device_ids
    ∧ (s.clear_progress k).selected_files = s.selected_files
    ∧ (s.clear_progress k).status = s.status := by
  simp [AppState.clear_progress, upd, hne]

/-- C10: each of `start_transfer`, `update_progress`, `set_transfer_status`
and `clear_progress` targeting device `k` leaves every entry keyed by any
`k2 ≠ k` unchanged in `progress`, `transfer_speeds`, `transfer_start_times`,
`transfer_bytes` and `transfer_status`, and leaves `devices`,
`selected_device_ids`, `selected_files` and `status` untouched. -/
theorem c10_frame (s : AppState) (k k2 : String) (now r : ℚ) (b : Nat)
    (st : TransferStatus) (hne : k2 ≠ k) :
    ((s.start_transfer k now).progress k2 = s.progress k2
      ∧ (s.start_transfer k now).transfer_speeds k2 = s.transfer_speeds k2
      ∧ (s.start_transfer k now).transfer_start_times k2
          = s.transfer_start_times k2
      ∧ (s.start_transfer k now).transfer_bytes k2 = s.transfer_bytes k2
      ∧ (s.start_transfer k now).transfer_status k2 = s.transfer_status k2
      ∧ (s.start_transfer k now).devices = s.devices
      ∧ (s.start_transfer k now).selected_device_ids = s.selected_device_ids
      ∧ (s.start_transfer k now).selected_files = s.selected_files
      ∧ (s.start_transfer k now).status = s.status)
    ∧ ((s.update_progress k r b now).progress k2 = s.progress k2
      ∧ (s.update_progress k r b now).transfer_speeds k2 = s.transfer_speeds k2
      ∧ (s.update_progress k r b now).transfer_start_times k2
          = s.transfer_start_times k2
      ∧ (s.update_progress k r b now).transfer_bytes k2 = s.transfer_bytes k2
      ∧ (s.update_progress k r b now).transfer_status k2 = s.transfer_status k2
      ∧ (s.update_progress k r b now).devices = s.devices
      ∧ (s.update_progress k r b now).selected_device_ids
          = s.selected_device_ids
      ∧ (s.update_progress k r b now).selected_files = s.selected_files
      ∧ (s.update_progress k r b now).status = s.status)
    ∧ ((s.set_transfer_status k st).progress k2 = s.progress k2
      ∧ (s.set_transfer_status k st).transfer_speeds k2 = s.transfer_speeds k2
      ∧ (s.set_transfer_status k st).transfer_start_times k2
          = s.transfer_start_times k2
      ∧ (s.set_transfer_status k st).transfer_bytes k2 = s.transfer_bytes k2
      ∧ (s.set_transfer_status k st).transfer_status k2 = s.transfer_status k2
      ∧ (s.set_transfer_status k st).devices = s.devices
      ∧ (s.set_transfer_status k st).selected_device_ids
          = s.selected_device_ids
      ∧ (s.set_transfer_status k st).selected_files = s.selected_files
      ∧ (s.set_transfer_status k st).status = s.status)
    ∧ ((s.clear_progress k).progress k2 = s.progress k2
      ∧ (s.clear_progress k).transfer_speeds k2 = s.transfer_speeds k2
      ∧ (s.clear_progress k).transfer_start_times k2
          = s.transfer_start_times k2
      ∧ (s.clear_progress k).transfer_bytes k2 = s.transfer_bytes k2
      ∧ (s.clear_progress k).transfer_status k2 = s.transfer_status k2
      ∧ (s.clear_progress k).devices = s.devices
      ∧ (s.clear_progress k).selected_device_ids = s.selected_device_ids
      ∧ (s.clear_progress k).selected_files = s.selected_files
      ∧ (s.clear_progress k).status = s.status) :=
  ⟨start_transfer_frame s k k2 now hne,
   update_progress_frame s k k2 r b now hne,
   set_transfer_status_frame s k k2 st hne,
   clear_progress_frame s k k2 hne⟩

/-- Witness for `c10_frame`: an operation on device `"a"` leaves the
progress entry of device `"b"` unchanged. -/
theorem c10_frame_witness :
    (("b" : String) ≠ "a")
    ∧ (((AppState.init true).update_progress "b" (1 / 2) 0 0).update_progress
          "a" 1 7 9).progress "b"
        = ((AppState.init true).update_progress "b" (1 / 2) 0 0).progress "b" :=
  ⟨by decide,
   (c10_frame ((AppState.init true).update_progress "b" (1 / 2) 0 0)
     "a" "b" 9 1 7 TransferStatus.error (by decide)).2.1.1⟩
